import Mathlib

/-!
Shallow embedding of the interactive data-grid engine and the Gantt timeline
geometry engine of the task-tracking board (src/App.tsx, src/types.ts).

Conventions of the embedding:
* JS `Set<string>` is `Finset String` (membership-only usage in the source).
* JS arrays are `List`; `Array.prototype.splice` is modelled with JS's
  clamping of a possibly negative start index (`jsSpliceStart`), since
  `indexOf` returns `-1` for an absent element and the source feeds that
  value to `splice` unchecked.
* JS numbers that the source only ever adds/compares as integers
  (pixel widths, clientX) are `ℤ`; the Gantt zoom factor `pixelsPerDay`
  (multiplied by 0.8 / 1.25) is `ℚ`.
* Calendar dates (parsed with `new Date(...)` from `YYYY-MM-DD` strings,
  hence UTC midnights) are integer day numbers; `getTime()` is the day
  number times `msPerDay = 86400000`, exactly as the source divides by it.
* `JSON.parse (JSON.stringify x)` on the persisted plain objects/arrays is
  modelled as the identity on the structured payload; a missing stored key
  or a parse failure is the `none` branch of the loader.
-/

namespace Taskflow

/-- Embeds `TaskType` from src/types.ts: `'Task' | 'Milestone'`. -/
inductive TaskType where
  | task
  | milestone
deriving DecidableEq, Repr

/-- Embeds `Task` from src/types.ts.  Status and priority are string unions in the
source and are kept as strings; `closedDate` is the only optional field. -/
structure Task where
  id : String
  title : String
  description : String
  status : String
  priority : String
  startDate : String
  dueDate : String
  closedDate : Option String
  assignee : String
  type : TaskType
deriving DecidableEq, Repr

/-- String form of a `TaskType`, as `String((task as any).type)` would produce. -/
def TaskType.str : TaskType → String
  | .task => "Task"
  | .milestone => "Milestone"

/-- Models `String((task as any)[key] || '')` from `filteredTasks` in src/App.tsx:
dynamic field access on a `Task`, with `undefined`/missing collapsing to the
empty string (`closedDate` may be absent; an unknown key is `undefined`). -/
def Task.getField (t : Task) : String → String
  | "id" => t.id
  | "title" => t.title
  | "description" => t.description
  | "status" => t.status
  | "priority" => t.priority
  | "startDate" => t.startDate
  | "dueDate" => t.dueDate
  | "closedDate" => t.closedDate.getD ""
  | "assignee" => t.assignee
  | "type" => t.type.str
  | _ => ""

/-- Prefix test on character lists, written out so that it is a
plain structural recursion the kernel can evaluate. -/
def charPrefix : List Char → List Char → Bool
  | [], _ => true
  | _ :: _, [] => false
  | c :: cs, d :: ds => c == d && charPrefix cs ds

/-- JS `hay.includes(needle)`: contiguous-substring test on character lists. -/
def charContains (hay needle : List Char) : Bool :=
  match hay with
  | [] => needle.isEmpty
  | _ :: t => charPrefix needle hay || charContains t needle

/-- JS `s.includes(sub)` on strings. -/
def jsIncludes (s sub : String) : Bool :=
  charContains s.data sub.data

/-- JS `s.toLowerCase()` (on the ASCII-ranged data the grid holds):
per-character lowering, written through the string's character list so the
kernel can evaluate it. -/
def jsToLower (s : String) : String :=
  ⟨s.data.map Char.toLower⟩

/-- One filter entry of `activeFilters` applied to a task: the body of the
inner `every` callback in `filteredTasks` (src/App.tsx).  An empty filter
value passes; `status` and `priority` compare by exact string equality;
every other key lower-cases the field's string form and the filter value and
tests substring containment. -/
def entryPasses (t : Task) (key value : String) : Bool :=
  if value = "" then true
  else if key = "status" then t.status == value
  else if key = "priority" then t.priority == value
  else jsIncludes (jsToLower (t.getField key)) (jsToLower value)

/-- Conjunction of `Object.entries(activeFilters).every(...)` over a task. -/
def passesFilters (filters : List (String × String)) (t : Task) : Bool :=
  filters.all fun kv => entryPasses t kv.1 kv.2

/-- Embeds `filteredTasks` from src/App.tsx: `tasks.filter(...)` over the active
filter entries. -/
def filteredTasks (tasks : List Task) (filters : List (String × String)) : List Task :=
  tasks.filter (passesFilters filters)

/-- Embeds `toggleSelection` from src/App.tsx: flip membership of `id` in the
selection set. -/
def toggleSelection (selected : Finset String) (id : String) : Finset String :=
  if id ∈ selected then selected.erase id else insert id selected

/-- Embeds `toggleAllSelection` from src/App.tsx: if the selection's size equals the
number of filtered tasks and that number is positive, clear; otherwise select
exactly the filtered tasks' ids. -/
def toggleAllSelection (selected : Finset String) (filtered : List Task) : Finset String :=
  if selected.card = filtered.length ∧ 0 < filtered.length then ∅
  else (filtered.map Task.id).toFinset

/-- JS `Array.prototype.indexOf`: index of the first occurrence, `-1` when
absent. -/
def jsIdxOf (l : List String) (x : String) : Int :=
  match l.indexOf? x with
  | some i => (i : Int)
  | none => -1

/-- JS `splice` start-index normalisation: a negative start counts from the
end (clamped at 0), a start past the end is clamped to the length. -/
def jsSpliceStart (len : Nat) (start : Int) : Nat :=
  if start < 0 then ((len : Int) + start).toNat else min start.toNat len

/-- Embeds `handleColumnDrop` from src/App.tsx (identical in TaskListView and
IssueLogView): guard against a null drag or dropping a column on itself, then
`newOrder.splice(draggedIdx, 1)` followed by
`newOrder.splice(targetIdx, 0, draggedColumn)`, both indices having been
computed on the order as it was before either splice. -/
def handleColumnDrop (order : List String) (draggedColumn : Option String)
    (targetKey : String) : List String :=
  match draggedColumn with
  | none => order
  | some dk =>
    if dk = targetKey then order
    else
      let draggedIdx := jsIdxOf order dk
      let targetIdx := jsIdxOf order targetKey
      let afterRemove := order.eraseIdx (jsSpliceStart order.length draggedIdx)
      afterRemove.insertIdx (jsSpliceStart afterRemove.length targetIdx) dk

/-- The ephemeral resize-drag state of src/App.tsx: the column key being
resized, the pointer's starting x coordinate and the column's width when the
drag started. -/
structure ResizeState where
  key : String
  startX : Int
  startWidth : Int

/-- Embeds `handleMouseMove` from src/App.tsx while a resize drag is active:
`newWidth = Math.max(80, startWidth + (clientX - startX))`, written into the
widths map at the resized column's key only (`{ ...prev, [key]: newWidth }`). -/
def handleMouseMove (widths : String → Int) (r : ResizeState) (clientX : Int) :
    String → Int :=
  fun k =>
    if k = r.key then max 80 (r.startWidth + (clientX - r.startX)) else widths k

/-- Default column order of the TaskListView (src/App.tsx). -/
def defaultTaskColumnOrder : List String :=
  ["title", "description", "status", "priority", "assignee",
   "startDate", "dueDate", "closedDate"]

/-- The TaskListView's column-order loader (src/App.tsx): parse the stored
payload; if it lacks `'closedDate'` append it (a layout-schema migration);
a missing or unparsable payload falls back to the default order. -/
def loadTaskColumnOrder (stored : Option (List String)) : List String :=
  match stored with
  | some parsed =>
    if "closedDate" ∈ parsed then parsed else parsed ++ ["closedDate"]
  | none => defaultTaskColumnOrder

/-- The TaskListView's column-order saver: `JSON.stringify(columnOrder)` into
the store, modelled as storing the payload itself. -/
def saveTaskColumnOrder (order : List String) : Option (List String) :=
  some order

/-- Default column widths of the TaskListView (src/App.tsx), as the ordered
key/value pairs of the JS object literal. -/
def defaultTaskColumnWidths : List (String × Int) :=
  [("title", 250), ("description", 350), ("status", 120), ("priority", 120),
   ("assignee", 160), ("startDate", 120), ("dueDate", 120), ("closedDate", 120)]

/-- The TaskListView's column-widths loader (src/App.tsx): the parsed payload
as is, or the defaults when nothing is stored or parsing fails. -/
def loadTaskColumnWidths (stored : Option (List (String × Int))) :
    List (String × Int) :=
  stored.getD defaultTaskColumnWidths

/-- The TaskListView's column-widths saver, modelled as storing the payload. -/
def saveTaskColumnWidths (widths : List (String × Int)) :
    Option (List (String × Int)) :=
  some widths

/-! ### Gantt timeline geometry (GanttView in src/App.tsx) -/

/-- The rendering granularity `viewMode` takes: `'Daily'` or `'Monthly'`. -/
inductive GanttMode where
  | daily
  | monthly
deriving DecidableEq, Repr

/-- Embeds `viewMode = pixelsPerDay >= 18 ? 'Daily' : 'Monthly'` (src/App.tsx). -/
def viewMode (pixelsPerDay : ℚ) : GanttMode :=
  if 18 ≤ pixelsPerDay then .daily else .monthly

/-- Milliseconds per day, the divisor `1000 * 60 * 60 * 24` of src/App.tsx. -/
def msPerDay : ℚ := 1000 * 60 * 60 * 24

/-- A task as the Gantt engine reads it: its dates parsed to UTC-midnight
instants, represented by integer day numbers (so `getTime()` is the day
number times `msPerDay`). -/
structure GTask where
  id : String
  startDay : Int
  dueDay : Int
  type : TaskType

/-- Models `new Date(t.startDate).getTime()` for a Gantt task. -/
def GTask.startMs (t : GTask) : ℚ := (t.startDay : ℚ) * msPerDay

/-- Models `new Date(t.dueDate).getTime()` for a Gantt task. -/
def GTask.dueMs (t : GTask) : ℚ := (t.dueDay : ℚ) * msPerDay

/-- The `left` of one entry of `taskPositions` (src/App.tsx):
`startOffset = (tStart.getTime() - startDate.getTime()) / 86400000`, then
`left = startOffset * PIXELS_PER_DAY`.  `rangeStartDay` is the day number of
the computed timeline start (min date minus buffer, possibly month-snapped). -/
def taskLeft (rangeStartDay : Int) (pixelsPerDay : ℚ) (t : GTask) : ℚ :=
  (t.startMs - (rangeStartDay : ℚ) * msPerDay) / msPerDay * pixelsPerDay

/-- The `width` of one entry of `taskPositions` (src/App.tsx):
`duration = (tEnd.getTime() - tStart.getTime()) / 86400000 + 1`, then
`width = duration * PIXELS_PER_DAY`. -/
def taskWidth (pixelsPerDay : ℚ) (t : GTask) : ℚ :=
  ((t.dueMs - t.startMs) / msPerDay + 1) * pixelsPerDay

/-- What the GanttView renders for one task: a milestone diamond (fixed
28px × 28px, `w-7 h-7`, positioned at `left: pos.x - 14`), a task bar
(`left: pos.x, width: pos.width`, emitted only when `pos.width > 0`), or
nothing. -/
inductive RenderedBar where
  | marker (left width : ℚ)
  | bar (left width : ℚ)
  | hidden
deriving DecidableEq, Repr

/-- The width of a rendered element (0 when nothing is rendered). -/
def RenderedBar.widthOf : RenderedBar → ℚ
  | .marker _ w => w
  | .bar _ w => w
  | .hidden => 0

/-- The left edge of a rendered element (0 when nothing is rendered). -/
def RenderedBar.leftOf : RenderedBar → ℚ
  | .marker l _ => l
  | .bar l _ => l
  | .hidden => 0

/-- The task-row rendering of GanttView (src/App.tsx): milestones become a
constant-size diamond centered on the task's x offset; other tasks become a
bar of the computed geometry, shown only when its width is positive. -/
def renderTask (rangeStartDay : Int) (pixelsPerDay : ℚ) (t : GTask) : RenderedBar :=
  if t.type = .milestone then
    .marker (taskLeft rangeStartDay pixelsPerDay t - 14) 28
  else if 0 < taskWidth pixelsPerDay t then
    .bar (taskLeft rangeStartDay pixelsPerDay t) (taskWidth pixelsPerDay t)
  else
    .hidden

/-- A throwaway task record whose only distinguishing field is its id, for
concrete instances. -/
def mkTask (i : String) : Task :=
  { id := i, title := "", description := "", status := "To Do", priority := "Low",
    startDate := "", dueDate := "", closedDate := none, assignee := "", type := .task }

/-! ### Helper lemmas -/

theorem jsIdxOf_of_mem {l : List String} {x : String} (h : x ∈ l) :
    jsIdxOf l x = (l.indexOf x : Int) := by
  unfold jsIdxOf
  rcases he : l.indexOf? x with _ | i
  · exact absurd (List.indexOf?_eq_none_iff.1 he x h) (by simp)
  · rw [List.indexOf_eq_indexOf?, he]

theorem jsIdxOf_of_not_mem {l : List String} {x : String} (h : x ∉ l) :
    jsIdxOf l x = -1 := by
  have hn : l.indexOf? x = none :=
    List.indexOf?_eq_none_iff.2 fun y hy hb => h (eq_of_beq hb ▸ hy)
  unfold jsIdxOf
  rw [hn]

theorem jsSpliceStart_coe {len n : Nat} (h : n ≤ len) :
    jsSpliceStart len (n : Int) = n := by
  unfold jsSpliceStart
  rw [if_neg (by omega)]
  simp [Nat.min_eq_left h]

theorem jsSpliceStart_le (len : Nat) (start : Int) : jsSpliceStart len start ≤ len := by
  unfold jsSpliceStart
  split
  · omega
  · exact Nat.min_le_right _ _

theorem entryPasses_iff (t : Task) (k v : String) :
    entryPasses t k v = true ↔ (v ≠ "" →
      (if k = "status" then t.status = v
       else if k = "priority" then t.priority = v
       else jsIncludes (jsToLower (t.getField k)) (jsToLower v) = true)) := by
  unfold entryPasses
  split_ifs <;> simp [*]

theorem msPerDay_ne_zero : msPerDay ≠ 0 := by norm_num [msPerDay]

theorem taskLeft_eq (rangeStartDay : Int) (pixelsPerDay : ℚ) (t : GTask) :
    taskLeft rangeStartDay pixelsPerDay t
      = ((t.startDay : ℚ) - (rangeStartDay : ℚ)) * pixelsPerDay := by
  unfold taskLeft GTask.startMs
  rw [div_mul_eq_mul_div, div_eq_iff msPerDay_ne_zero]
  ring

theorem taskWidth_eq (pixelsPerDay : ℚ) (t : GTask) :
    taskWidth pixelsPerDay t
      = ((t.dueDay : ℚ) - (t.startDay : ℚ) + 1) * pixelsPerDay := by
  unfold taskWidth GTask.dueMs GTask.startMs
  rw [sub_div, mul_div_assoc, mul_div_assoc, div_self msPerDay_ne_zero]
  ring

theorem taskWidth_pos {pixelsPerDay : ℚ} {t : GTask} (hle : t.startDay ≤ t.dueDay)
    (hp : 0 < pixelsPerDay) : 0 < taskWidth pixelsPerDay t := by
  rw [taskWidth_eq]
  have h1 : (t.startDay : ℚ) ≤ (t.dueDay : ℚ) := by exact_mod_cast hle
  exact mul_pos (by linarith) hp

theorem handleColumnDrop_present (order : List String) (dk tk : String)
    (hdk : dk ∈ order) (htk : tk ∈ order) (hne : dk ≠ tk) :
    handleColumnDrop order (some dk) tk
      = (order.erase dk).insertIdx (order.indexOf tk) dk := by
  have hdlt : order.indexOf dk < order.length := List.indexOf_lt_length.2 hdk
  have htlt : order.indexOf tk < order.length := List.indexOf_lt_length.2 htk
  have hlen : (order.erase dk).length + 1 = order.length := List.length_erase_add_one hdk
  have htle : order.indexOf tk ≤ (order.erase dk).length := by omega
  simp only [handleColumnDrop]
  rw [if_neg hne, jsIdxOf_of_mem hdk, jsIdxOf_of_mem htk,
    jsSpliceStart_coe (le_of_lt hdlt), List.eraseIdx_indexOf_eq_erase,
    jsSpliceStart_coe htle]

theorem handleColumnDrop_perm (order : List String) (dk tk : String)
    (hdk : dk ∈ order) (htk : tk ∈ order) (hne : dk ≠ tk) :
    (handleColumnDrop order (some dk) tk).Perm order := by
  have htlt : order.indexOf tk < order.length := List.indexOf_lt_length.2 htk
  have hlen : (order.erase dk).length + 1 = order.length := List.length_erase_add_one hdk
  have htle : order.indexOf tk ≤ (order.erase dk).length := by omega
  rw [handleColumnDrop_present order dk tk hdk htk hne]
  exact (List.perm_insertIdx dk (order.erase dk) htle).trans
    (List.perm_cons_erase hdk).symm

theorem insertIdx_after_indexOf (dk tk : String) :
    ∀ t : List String, tk ∈ t →
      ∃ l1 l2, t.insertIdx (t.indexOf tk + 1) dk = l1 ++ tk :: dk :: l2 := by
  intro t
  induction t with
  | nil => intro h; cases h
  | cons b s ih =>
    intro h
    by_cases hb : b = tk
    · subst hb
      refine ⟨[], s, ?_⟩
      rw [List.indexOf_cons_self, List.insertIdx_succ_cons, List.insertIdx_zero]
      rfl
    · have htk : tk ∈ s := by
        rcases List.mem_cons.1 h with h1 | h1
        · exact absurd h1.symm hb
        · exact h1
      obtain ⟨l1, l2, hl⟩ := ih htk
      refine ⟨b :: l1, l2, ?_⟩
      rw [List.indexOf_cons_ne _ hb, Nat.succ_eq_add_one,
        List.insertIdx_succ_cons, hl]
      rfl

theorem erase_insertIdx_before (dk tk : String) :
    ∀ l : List String, tk ∈ l → dk ∈ l → l.indexOf tk < l.indexOf dk →
      ∃ l1 l2, (l.erase dk).insertIdx (l.indexOf tk) dk = l1 ++ dk :: tk :: l2 := by
  intro l
  induction l with
  | nil => intro h; cases h
  | cons b s ih =>
    intro htk hdk hlt
    by_cases hbd : b = dk
    · subst hbd
      rw [List.indexOf_cons_self] at hlt
      cases Nat.not_lt_zero _ hlt
    · have hdk' : dk ∈ s := by
        rcases List.mem_cons.1 hdk with h1 | h1
        · exact absurd h1.symm hbd
        · exact h1
      have herase : (b :: s).erase dk = b :: s.erase dk :=
        List.erase_cons_tail (by simpa using hbd)
      by_cases hbt : b = tk
      · subst hbt
        refine ⟨[], s.erase dk, ?_⟩
        rw [List.indexOf_cons_self, herase, List.insertIdx_zero]
        rfl
      · have htk' : tk ∈ s := by
          rcases List.mem_cons.1 htk with h1 | h1
          · exact absurd h1.symm hbt
          · exact h1
        have hlt' : s.indexOf tk < s.indexOf dk := by
          rw [List.indexOf_cons_ne _ hbt, List.indexOf_cons_ne _ hbd] at hlt
          exact Nat.lt_of_succ_lt_succ hlt
        obtain ⟨l1, l2, hl⟩ := ih htk' hdk' hlt'
        refine ⟨b :: l1, l2, ?_⟩
        rw [List.indexOf_cons_ne _ hbt, herase, Nat.succ_eq_add_one,
          List.insertIdx_succ_cons, hl]
        rfl

theorem erase_insertIdx_after (dk tk : String) :
    ∀ l : List String, tk ∈ l → dk ∈ l → l.indexOf dk < l.indexOf tk →
      ∃ l1 l2, (l.erase dk).insertIdx (l.indexOf tk) dk = l1 ++ tk :: dk :: l2 := by
  intro l
  induction l with
  | nil => intro h; cases h
  | cons b s ih =>
    intro htk hdk hlt
    by_cases hbt : b = tk
    · subst hbt
      rw [List.indexOf_cons_self] at hlt
      cases Nat.not_lt_zero _ hlt
    · have htk' : tk ∈ s := by
        rcases List.mem_cons.1 htk with h1 | h1
        · exact absurd h1.symm hbt
        · exact h1
      by_cases hbd : b = dk
      · subst hbd
        rw [List.erase_cons_head, List.indexOf_cons_ne _ hbt,
          Nat.succ_eq_add_one]
        exact insertIdx_after_indexOf b tk s htk'
      · have hdk' : dk ∈ s := by
          rcases List.mem_cons.1 hdk with h1 | h1
          · exact absurd h1.symm hbd
          · exact h1
        have herase : (b :: s).erase dk = b :: s.erase dk :=
          List.erase_cons_tail (by simpa using hbd)
        have hlt' : s.indexOf dk < s.indexOf tk := by
          rw [List.indexOf_cons_ne _ hbt, List.indexOf_cons_ne _ hbd] at hlt
          exact Nat.lt_of_succ_lt_succ hlt
        obtain ⟨l1, l2, hl⟩ := ih htk' hdk' hlt'
        refine ⟨b :: l1, l2, ?_⟩
        rw [List.indexOf_cons_ne _ hbt, herase, Nat.succ_eq_add_one,
          List.insertIdx_succ_cons, hl]
        rfl

/-- The `Design Mockups` sample record of src/constants.ts (its dates vary
with the day the app runs, irrelevant to the filter claims). -/
def designTask : Task :=
  { id := "t1", title := "Design Mockups",
    description := "Create Figma designs for homepage", status := "Done",
    priority := "High", startDate := "", dueDate := "", closedDate := none,
    assignee := "Alice", type := .task }

/-! ### The claims -/

/-- C1 fails on the code for forward drags.  `handleColumnDrop` computes
`targetIdx` BEFORE removing the dragged column, so when the dragged column
precedes the target the removal shifts the target left and the insertion at
the stale index lands the dragged column immediately AFTER the target, not
immediately before it: on `[A,B,C,D]`, dragging `A` onto `C` gives
`[B,C,A,D]` — the claim requires `[B,A,C,D]`, and no decomposition of the
result has `A` immediately before `C`. -/
theorem reorder_forward_drag_counterexample :
    handleColumnDrop ["A", "B", "C", "D"] (some "A") "C" = ["B", "C", "A", "D"]
      ∧ handleColumnDrop ["A", "B", "C", "D"] (some "A") "C" ≠ ["B", "A", "C", "D"]
      ∧ ¬ ∃ l1 l2, handleColumnDrop ["A", "B", "C", "D"] (some "A") "C"
          = l1 ++ "A" :: "C" :: l2 := by
  have hninf : ¬ ["A", "C"] <:+: handleColumnDrop ["A", "B", "C", "D"] (some "A") "C" := by
    decide
  refine ⟨by decide, by decide, ?_⟩
  rintro ⟨l1, l2, h⟩
  exact hninf ⟨l1, l2, by rw [h]; simp⟩

/-- C1 amended: with both keys present and distinct, the reorder removes
the dragged key and reinserts it at the index the target key occupied
BEFORE the removal (both indices are read before either splice).  Dragging
a column backward (target earlier than dragged) therefore places it
immediately before the target — the spec's `reorder(D,B)` on `[A,B,C,D]`
gives `[A,D,B,C]` — but dragging forward (target later than dragged)
places it immediately after the target, `reorder(A,C)` giving `[B,C,A,D]`.
The result is always a permutation of the original keys, and dropping a
column on itself is a no-op. -/
theorem reorder_amended :
    (∀ (order : List String) (dk tk : String),
        dk ∈ order → tk ∈ order → dk ≠ tk →
        handleColumnDrop order (some dk) tk
            = (order.erase dk).insertIdx (order.indexOf tk) dk
          ∧ (handleColumnDrop order (some dk) tk).Perm order)
      ∧ (∀ (order : List String) (dk tk : String),
          dk ∈ order → tk ∈ order → order.indexOf tk < order.indexOf dk →
          ∃ l1 l2, handleColumnDrop order (some dk) tk = l1 ++ dk :: tk :: l2)
      ∧ (∀ (order : List String) (dk tk : String),
          dk ∈ order → tk ∈ order → order.indexOf dk < order.indexOf tk →
          ∃ l1 l2, handleColumnDrop order (some dk) tk = l1 ++ tk :: dk :: l2)
      ∧ (∀ (order : List String) (k : String),
          handleColumnDrop order (some k) k = order)
      ∧ handleColumnDrop ["A", "B", "C", "D"] (some "D") "B" = ["A", "D", "B", "C"]
      ∧ handleColumnDrop ["A", "B", "C", "D"] (some "A") "C" = ["B", "C", "A", "D"] := by
  refine ⟨?_, ?_, ?_, fun order k => by simp [handleColumnDrop], by decide, by decide⟩
  · intro order dk tk hdk htk hne
    exact ⟨handleColumnDrop_present order dk tk hdk htk hne,
      handleColumnDrop_perm order dk tk hdk htk hne⟩
  · intro order dk tk hdk htk hlt
    have hne : dk ≠ tk := fun he => absurd hlt (by rw [he]; exact lt_irrefl _)
    rw [handleColumnDrop_present order dk tk hdk htk hne]
    exact erase_insertIdx_before dk tk order htk hdk hlt
  · intro order dk tk hdk htk hlt
    have hne : dk ≠ tk := fun he => absurd hlt (by rw [he]; exact lt_irrefl _)
    rw [handleColumnDrop_present order dk tk hdk htk hne]
    exact erase_insertIdx_after dk tk order htk hdk hlt

/-- C2 fails on the code: `toggleAllSelection` compares the selection's SIZE
with the visible count, not the selection with the visible id set.  With
selection `{"x"}` and one visible task of id `"a"`, the selection does not
equal the visible id set, so the claim requires the result `{"a"}`; the code
clears instead. -/
theorem toggleAll_size_counterexample :
    ({"x"} : Finset String) ≠ ([mkTask "a"].map Task.id).toFinset
      ∧ toggleAllSelection {"x"} [mkTask "a"] ≠ ([mkTask "a"].map Task.id).toFinset
      ∧ toggleAllSelection {"x"} [mkTask "a"] = ∅ := by
  refine ⟨by decide, by decide, by decide⟩

/-- C2 amended: `toggleAllSelection` clears the selection whenever its size
equals the (positive) visible count — in particular whenever the selection is
exactly the visible id set — and sets the selection to exactly the visible
ids whenever the sizes differ (so stale ids are discarded then); starting
empty with 3 visible ids, one toggle selects exactly those 3 ids and a second
toggle returns to empty. -/
theorem toggleAll_amended :
    (∀ (s : Finset String) (filtered : List Task), s.card ≠ filtered.length →
        toggleAllSelection s filtered = (filtered.map Task.id).toFinset)
      ∧ (∀ (s : Finset String) (filtered : List Task),
          s.card = filtered.length → 0 < filtered.length →
          toggleAllSelection s filtered = ∅)
      ∧ (∀ (s : Finset String) (filtered : List Task),
          (filtered.map Task.id).Nodup → s = (filtered.map Task.id).toFinset →
          filtered ≠ [] → toggleAllSelection s filtered = ∅)
      ∧ toggleAllSelection ∅ [mkTask "a", mkTask "b", mkTask "c"] = {"a", "b", "c"}
      ∧ toggleAllSelection (toggleAllSelection ∅ [mkTask "a", mkTask "b", mkTask "c"])
          [mkTask "a", mkTask "b", mkTask "c"] = ∅ := by
  refine ⟨?_, ?_, ?_, by decide, by decide⟩
  · intro s filtered h
    simp only [toggleAllSelection]
    rw [if_neg fun hc => h hc.1]
  · intro s filtered h1 h2
    simp only [toggleAllSelection]
    rw [if_pos ⟨h1, h2⟩]
  · intro s filtered hnd hs hne
    have hcard : s.card = filtered.length := by
      rw [hs, List.toFinset_card_of_nodup hnd, List.length_map]
    simp only [toggleAllSelection]
    rw [if_pos ⟨hcard, by simpa [List.length_pos] using hne⟩]

/-- C3 fails on the code, on both halves.  Reordering with a dragged key
absent from the order is not a no-op: `indexOf` yields `-1`, so
`splice(-1, 1)` removes the LAST column and the dragged key is then inserted
at the target's position.  Toggling a record id that exists in no record
(here the collection holds only the task `"t1"`) is not a no-op either: the
unknown id is added to the selection. -/
theorem stale_reference_counterexample :
    "ghost" ∉ ([mkTask "t1"].map Task.id)
      ∧ handleColumnDrop ["title", "status"] (some "ghost") "title" ≠ ["title", "status"]
      ∧ handleColumnDrop ["title", "status"] (some "ghost") "title" = ["ghost", "title"]
      ∧ toggleSelection ∅ "ghost" ≠ ∅
      ∧ toggleSelection ∅ "ghost" = {"ghost"} := by
  refine ⟨by decide, by decide, by decide, by decide, by decide⟩

/-- C3 amended: the only defensive no-ops the code has are a null dragged
key and dropping a column onto itself.  A dragged key absent from the order
(and different from the target) always CHANGES the order — the dragged key
appears in the result but was not in the input — and toggling an id not in
the selection always inserts it, whether or not any record has that id. -/
theorem stale_reference_amended :
    (∀ (order : List String) (dk tk : String), dk ∉ order → dk ≠ tk →
        handleColumnDrop order (some dk) tk ≠ order)
      ∧ (∀ (selected : Finset String) (id : String), id ∉ selected →
          toggleSelection selected id = insert id selected
            ∧ toggleSelection selected id ≠ selected)
      ∧ (∀ (order : List String) (tk : String), handleColumnDrop order none tk = order)
      ∧ (∀ (order : List String) (k : String), handleColumnDrop order (some k) k = order) := by
  refine ⟨?_, ?_, fun order tk => rfl, fun order k => by simp [handleColumnDrop]⟩
  · intro order dk tk hdk hne hcontra
    have hform : handleColumnDrop order (some dk) tk
        = (order.eraseIdx (jsSpliceStart order.length (-1))).insertIdx
            (jsSpliceStart (order.eraseIdx (jsSpliceStart order.length (-1))).length
              (jsIdxOf order tk)) dk := by
      simp only [handleColumnDrop]
      rw [if_neg hne, jsIdxOf_of_not_mem hdk]
    have hmem : dk ∈ handleColumnDrop order (some dk) tk := by
      rw [hform]
      exact (List.mem_insertIdx (jsSpliceStart_le _ _)).2 (Or.inl rfl)
    exact hdk (hcontra ▸ hmem)
  · intro selected id h
    refine ⟨by simp [toggleSelection, h], ?_⟩
    rw [show toggleSelection selected id = insert id selected by
      simp [toggleSelection, h]]
    exact Finset.insert_ne_self.2 h

/-- C4 fails on the code for the column order: the loader appends
`'closedDate'` to any stored order that lacks it (a layout migration), so
`load(save(order))` differs from `order` there. -/
theorem layout_roundtrip_counterexample :
    loadTaskColumnOrder (saveTaskColumnOrder ["title"]) ≠ ["title"]
      ∧ loadTaskColumnOrder (saveTaskColumnOrder ["title"])
          = ["title", "closedDate"] := by
  refine ⟨by decide, by decide⟩

/-- C4 amended: the widths map round-trips unconditionally, and the column
order round-trips exactly when it contains `'closedDate'` — which every
order the app itself saves does, since the default contains it, loading
restores it, and reordering only permutes; an order lacking it comes back
with `'closedDate'` appended. -/
theorem layout_roundtrip_amended :
    (∀ widths, loadTaskColumnWidths (saveTaskColumnWidths widths) = widths)
      ∧ (∀ order, "closedDate" ∈ order →
          loadTaskColumnOrder (saveTaskColumnOrder order) = order)
      ∧ (∀ order, "closedDate" ∉ order →
          loadTaskColumnOrder (saveTaskColumnOrder order) = order ++ ["closedDate"]) := by
  refine ⟨fun widths => rfl, ?_, ?_⟩
  · intro order h
    simp [loadTaskColumnOrder, saveTaskColumnOrder, h]
  · intro order h
    simp [loadTaskColumnOrder, saveTaskColumnOrder, h]

/-- C5: a task is kept by the filter engine iff it came from the input and
passes every active (non-empty) filter entry — logical AND across columns,
with `status`/`priority` compared by exact string equality and every other
key by case-insensitive substring containment against the field's string
form (a missing field reads as the empty string via `Task.getField`); an
empty filter map is the identity, the spec's `{title: "mock"}` example
matches `"Design Mockups"`, the two-entry AND example keeps the matching
record, and the exact status comparison is case-sensitive. -/
theorem filter_conjunction_semantics :
    (∀ (tasks : List Task) (filters : List (String × String)) (t : Task),
        t ∈ filteredTasks tasks filters
          ↔ t ∈ tasks ∧ ∀ kv ∈ filters, kv.2 ≠ "" →
              (if kv.1 = "status" then t.status = kv.2
               else if kv.1 = "priority" then t.priority = kv.2
               else jsIncludes (jsToLower (t.getField kv.1)) (jsToLower kv.2) = true))
      ∧ (∀ tasks, filteredTasks tasks [] = tasks)
      ∧ filteredTasks [designTask] [("title", "mock")] = [designTask]
      ∧ filteredTasks [designTask] [("status", "Done"), ("priority", "High")]
          = [designTask]
      ∧ filteredTasks [designTask] [("status", "done")] = [] := by
  refine ⟨?_, ?_, by decide, by decide, by decide⟩
  · intro tasks filters t
    simp only [filteredTasks, List.mem_filter, passesFilters, List.all_eq_true,
      entryPasses_iff]
  · intro tasks
    simp [filteredTasks, passesFilters]

/-- C6: the Gantt bar geometry divides millisecond differences by
86 400 000 ms per day, so the x offset is `(startDay - rangeStartDay) *
pixelsPerDay` and the width is `(dueDay - startDay + 1) * pixelsPerDay`
(inclusive day count); a single-day task at `pixelsPerDay = 40` has width
exactly 40, and no task with `dueDate >= startDate` has zero width at a
positive zoom. -/
theorem gantt_geometry :
    (∀ (rangeStartDay : Int) (pixelsPerDay : ℚ) (t : GTask),
        taskLeft rangeStartDay pixelsPerDay t
          = ((t.startDay : ℚ) - (rangeStartDay : ℚ)) * pixelsPerDay)
      ∧ (∀ (pixelsPerDay : ℚ) (t : GTask),
          taskWidth pixelsPerDay t
            = ((t.dueDay : ℚ) - (t.startDay : ℚ) + 1) * pixelsPerDay)
      ∧ (∀ t : GTask, t.startDay = t.dueDay → taskWidth 40 t = 40)
      ∧ (∀ (pixelsPerDay : ℚ) (t : GTask), t.startDay ≤ t.dueDay →
          0 < pixelsPerDay → taskWidth pixelsPerDay t ≠ 0) := by
  refine ⟨taskLeft_eq, taskWidth_eq, ?_, ?_⟩
  · intro t h
    rw [taskWidth_eq, h]
    ring
  · intro pixelsPerDay t hle hp
    exact ne_of_gt (taskWidth_pos hle hp)

/-- C7: a Milestone task renders as the fixed diamond marker — 28 px wide
(`w-7`) whatever the zoom, placed at `x - 14` and hence centered on the
task's x offset, ignoring the computed width — while a Task-type task with
any dates (in particular identical ones) renders as a bar whose width is
`(dueDay - startDay + 1) * pixelsPerDay`, linear in the zoom factor. -/
theorem milestone_fixed_marker :
    (∀ (rs : Int) (p : ℚ) (t : GTask), t.type = .milestone →
        renderTask rs p t = .marker (taskLeft rs p t - 14) 28)
      ∧ (∀ (rs : Int) (p q : ℚ) (t : GTask), t.type = .milestone →
          (renderTask rs p t).widthOf = 28
            ∧ (renderTask rs p t).widthOf = (renderTask rs q t).widthOf)
      ∧ (∀ (rs : Int) (p : ℚ) (t : GTask), t.type = .milestone →
          (renderTask rs p t).leftOf + 28 / 2 = taskLeft rs p t)
      ∧ (∀ (rs : Int) (p : ℚ) (t : GTask), t.type = .task →
          t.startDay ≤ t.dueDay → 0 < p →
          (renderTask rs p t).widthOf = ((t.dueDay : ℚ) - (t.startDay : ℚ) + 1) * p) := by
  have hms : ∀ (rs : Int) (p : ℚ) (t : GTask), t.type = .milestone →
      renderTask rs p t = .marker (taskLeft rs p t - 14) 28 := by
    intro rs p t h
    simp [renderTask, h]
  refine ⟨hms, ?_, ?_, ?_⟩
  · intro rs p q t h
    rw [hms rs p t h, hms rs q t h]
    exact ⟨rfl, rfl⟩
  · intro rs p t h
    rw [hms rs p t h]
    show taskLeft rs p t - 14 + 28 / 2 = taskLeft rs p t
    ring
  · intro rs p t h hle hp
    have hnm : ¬t.type = .milestone := by rw [h]; exact fun hc => by cases hc
    rw [show renderTask rs p t = .bar (taskLeft rs p t) (taskWidth p t) by
      simp [renderTask, hnm, taskWidth_pos hle hp]]
    exact taskWidth_eq p t

/-- C8: over the whole zoom range `[2, 100]` the timeline granularity is
Daily exactly when `pixelsPerDay >= 18` and Monthly exactly when it is
below 18; in particular 17 gives Monthly and 18 gives Daily. -/
theorem granularity_threshold :
    (∀ p : ℚ, 2 ≤ p → p ≤ 100 → (viewMode p = .daily ↔ 18 ≤ p))
      ∧ (∀ p : ℚ, 2 ≤ p → p ≤ 100 → (viewMode p = .monthly ↔ p < 18))
      ∧ viewMode 17 = .monthly
      ∧ viewMode 18 = .daily := by
  refine ⟨?_, ?_, by norm_num [viewMode], by norm_num [viewMode]⟩
  · intro p _ _
    unfold viewMode
    split_ifs with h <;> simp [h]
  · intro p _ _
    unfold viewMode
    split_ifs with h <;> simp [h, lt_iff_not_le]

/-- C9: one resize pointer-move stores
`max(80, startWidth + (clientX - startX))` at the dragged column's key —
never below the 80 px floor, a requested 10 clamps to 80 — and leaves every
other column's width exactly as it was. -/
theorem resize_floor_and_frame :
    (∀ (widths : String → Int) (r : ResizeState) (clientX : Int),
        handleMouseMove widths r clientX r.key
          = max 80 (r.startWidth + (clientX - r.startX)))
      ∧ (∀ (widths : String → Int) (r : ResizeState) (clientX : Int),
          80 ≤ handleMouseMove widths r clientX r.key)
      ∧ (∀ (widths : String → Int) (r : ResizeState) (clientX : Int) (k : String),
          k ≠ r.key → handleMouseMove widths r clientX k = widths k)
      ∧ (∀ (widths : String → Int) (r : ResizeState) (clientX : Int),
          r.startWidth + (clientX - r.startX) = 10 →
          handleMouseMove widths r clientX r.key = 80) := by
  have hkey : ∀ (widths : String → Int) (r : ResizeState) (clientX : Int),
      handleMouseMove widths r clientX r.key
        = max 80 (r.startWidth + (clientX - r.startX)) := by
    intro widths r clientX
    simp [handleMouseMove]
  refine ⟨hkey,
    fun widths r clientX => ?_,
    fun widths r clientX k h => by simp [handleMouseMove, h],
    fun widths r clientX h => ?_⟩
  · rw [hkey]
    exact le_max_left _ _
  · rw [hkey, h]
    decide

/-- C10: with an empty filtered view, `toggleAllSelection` always ends with
the empty selection, whatever was selected before: the clear branch's guard
`filteredTasks.length > 0` is false, so the else branch runs and sets the
selection to the empty visible-id set, dropping any stale ids. -/
theorem toggleAll_empty_view (s : Finset String) :
    toggleAllSelection s ([] : List Task) = ∅
      ∧ ¬(s.card = ([] : List Task).length ∧ 0 < ([] : List Task).length) := by
  constructor
  · simp [toggleAllSelection]
  · rintro ⟨-, h⟩
    simp at h

end Taskflow
